import Mathlib

/-!
Shallow embedding of `labkey_multisite_query_tool/labkey.py`: a thin client
that queries LabKey-style servers, translating user-facing column names to
server-native ones and back.  Python dicts are modelled as association lists
whose insertions overwrite in place (`dictInsert`), strings as Lean strings,
and each HTTP round-trip by passing the server's response as an argument.
-/

set_option autoImplicit false

namespace LabKeyTool

/-- Lookup in the association-list model of a Python dict: first binding wins
(keys stay unique because every insertion goes through `dictInsert`). -/
def dictGet {α : Type} (k : String) : List (String × α) → Option α
  | [] => none
  | (k', v) :: d => if k' = k then some v else dictGet k d

/-- Model of `d[k] = v` on a Python dict: overwrite in place, append if new. -/
def dictInsert {α : Type} (k : String) (v : α) : List (String × α) → List (String × α)
  | [] => [(k, v)]
  | (k', v') :: d => if k' = k then (k, v) :: d else (k', v') :: dictInsert k v d

/-- Model of Python `d.update(e)`: insert every binding of `e` into `d`. -/
def dictUpdate {α : Type} (d e : List (String × α)) : List (String × α) :=
  e.foldl (fun acc kv => dictInsert kv.1 kv.2 acc) d

/-- Model of Python `s.split(sep)` with a one-character separator:
splits at every occurrence (not just the first), and an input without the
separator yields a one-element list. -/
def splitChar (c : Char) : List Char → List (List Char)
  | [] => [[]]
  | x :: xs =>
    match splitChar c xs with
    | [] => [[]]
    | y :: ys => if x = c then [] :: y :: ys else (x :: y) :: ys

/-- Model of line 120, `column, operator = key.split("~")`: the two-element
tuple unpacking succeeds exactly when the key holds exactly one tilde;
otherwise Python raises `ValueError`. -/
def splitFilterKey (key : String) : Option (String × String) :=
  match splitChar '~' key.data with
  | [c, op] => some (String.mk c, String.mk op)
  | _ => none

/-- Model of Python `','.join columns` (line 110). -/
def joinComma : List String → String
  | [] => ""
  | [s] => s
  | s :: rest => s ++ "," ++ joinComma rest

/-- Scheme parser for the `urljoin` model: accepts an alphabetic scheme
followed by the literal `://`. -/
def parseScheme : List Char → Option (List Char × List Char)
  | [] => none
  | ':' :: '/' :: '/' :: rest => some ([], rest)
  | c :: cs =>
    if c.isAlpha then (parseScheme cs).map (fun p => (c :: p.1, p.2)) else none

/-- Splits what follows the scheme into network location and path. -/
def splitNetloc : List Char → List Char × List Char
  | [] => ([], [])
  | c :: cs =>
    if c = '/' then ([], c :: cs)
    else
      let p := splitNetloc cs
      (c :: p.1, p.2)

/-- Parses an absolute hierarchical URL into scheme, netloc and path. -/
def parseUrl (s : String) : Option (String × String × String) :=
  match parseScheme s.data with
  | none => none
  | some (sch, rest) =>
    if sch = [] then none
    else
      let p := splitNetloc rest
      some (String.mk sch, String.mk p.1, String.mk p.2)

/-- Base path up to and including its last slash, the merge step of standard
URL resolution (an empty base path merges below the root). -/
def dirOf (path : List Char) : List Char :=
  match path.reverse.dropWhile (fun c => c ≠ '/') with
  | [] => ['/']
  | r => r.reverse

/-- Tests whether the first character of a string is `c`. -/
def startsWith1 (s : String) (c : Char) : Bool :=
  match s.data with
  | c' :: _ => c' = c
  | [] => false

/-- Tests whether a string starts with the two characters `a`, `b`. -/
def startsWith2 (s : String) (a b : Char) : Bool :=
  match s.data with
  | x :: y :: _ => x = a && y = b
  | _ => false

/-- Model of Python 2 `urlparse.urljoin` restricted to the hierarchical cases
this client exercises: an absolute base URL and a relative URL without a
scheme of its own.  Dot-segment normalisation and query/fragment components
are outside the model. -/
def urljoin (base rel : String) : String :=
  match parseUrl rel with
  | some _ => rel
  | none =>
    match parseUrl base with
    | none => rel
    | some (sch, nl, path) =>
      if rel = "" then base
      else if startsWith2 rel '/' '/' then sch ++ ":" ++ rel
      else if startsWith1 rel '/' then sch ++ "://" ++ nl ++ rel
      else sch ++ "://" ++ nl ++ String.mk (dirOf path.data) ++ rel

/-- Connection state stored by `LabKey.__init__` (lines 52-75): aliases map
server-native column names to user-facing ones, custom columns map a
user-facing name to a literal value. -/
structure LabKey where
  host : String
  email : String
  password : String
  project : String
  schema : String
  query_name : String
  columns : List String
  aliases : List (String × String)
  custom_columns : List (String × String)
deriving DecidableEq

/-- Models `LabKey.url` (lines 197-210): join the host and a relative path. -/
def LabKey.url (self : LabKey) (relative_url : String) : String :=
  urljoin self.host relative_url

/-- Line 100: the dict comprehension inverting the alias map,
`reverse_aliases = dict of (value, key) for (key, value) in aliases`;
building by successive insertion makes a later entry overwrite an earlier one
with the same value. -/
def reverseAliases (aliases : List (String × String)) : List (String × String) :=
  aliases.foldl (fun acc kv => dictInsert kv.2 kv.1 acc) []

/-- Lines 105 and 122: `reverse_aliases.get(column, column)`, the user-facing
to server-native translation with pass-through for unaliased names. -/
def translateColumn (aliases : List (String × String)) (column : String) : String :=
  (dictGet column (reverseAliases aliases)).getD column

/-- Per-name action of the forward rename of line 152: a server-native
column name is replaced by its user-facing alias when one exists. -/
def renameColumn (aliases : List (String × String)) (column : String) : String :=
  (dictGet column aliases).getD column

/-- Lines 107-111: the base query parameters. -/
def buildBaseParams (self : LabKey) : List (String × String) :=
  [("schemaName", self.schema),
   ("query.queryName", self.query_name),
   ("query.columns", joinComma (self.columns.map (translateColumn self.aliases)))]

/-- Lines 116-126: the filter loop.  Each key is unpacked by
`splitFilterKey`; an unsplittable key raises, i.e. yields an error before any
request is issued.  `acc` is the `filter_params` dict being built. -/
def buildFilterParams (aliases : List (String × String)) (acc : List (String × String)) :
    List (String × String) → Except String (List (String × String))
  | [] => Except.ok acc
  | (key, v) :: rest =>
    match splitFilterKey key with
    | some (column, op) =>
      buildFilterParams aliases
        (dictInsert ("query." ++ translateColumn aliases column ++ "~" ++ op) v acc) rest
    | none => Except.error ("ValueError: cannot unpack filter key " ++ key)

/-- The translated request-parameter name a filter key gives rise to
(line 124), defined whenever the key unpacks; an unsplittable key is kept
verbatim (the loop raises on it before using the name). -/
def translatedName (aliases : List (String × String)) (key : String) : String :=
  match splitFilterKey key with
  | some (column, op) => "query." ++ translateColumn aliases column ++ "~" ++ op
  | none => key

/-- An HTTP GET request as assembled by `query`: destination URL and the
query-string parameter dict. -/
structure Request where
  url : String
  params : List (String × String)
deriving DecidableEq

/-- Lines 97-129 of `LabKey.query`: the request that the single GET of line
131 is issued with, or the error raised while parsing the filters. -/
def buildRequest (self : LabKey) (filters : List (String × String)) :
    Except String Request :=
  match buildFilterParams self.aliases [] filters with
  | Except.ok fp =>
    Except.ok
      { url := self.url ("query/" ++ self.project ++ "/selectRows.api"),
        params := dictUpdate (buildBaseParams self) fp }
  | Except.error e => Except.error e

/-- The JSON body and status answering the `selectRows.api` GET: a `rows`
array plus the remaining top-level fields (kept abstract as a string map). -/
structure QueryResponse where
  status : Nat
  rows : List (List (String × String))
  metadata : List (String × String)
deriving DecidableEq

/-- Model of the pandas data frame as this tool uses it: a column list, rows
as per-row maps from column name to cell value, and the `_metadata` sidecar. -/
structure DataFrame where
  cols : List String
  rows : List (List (String × String))
  meta : List (String × String)
deriving DecidableEq

/-- Model of `pd.DataFrame.from_dict rows` (line 146): columns are the union
of the row keys, rows are kept as given.  (pandas' exact column ordering is
irrelevant to the claims; first appearance order is used.) -/
def DataFrame.from_dict (rows : List (List (String × String))) : DataFrame :=
  { cols := rows.foldl (fun acc r => r.foldl
      (fun a kv => if kv.1 ∈ a then a else a ++ [kv.1]) acc) [],
    rows := rows,
    meta := [] }

/-- Line 149: `data_frame._metadata = metadata`. -/
def DataFrame.withMeta (df : DataFrame) (m : List (String × String)) : DataFrame :=
  { df with meta := m }

/-- Line 152: `data_frame.rename(columns=aliases, inplace=True)`, the forward
renaming of server-native column names to user-facing ones. -/
def DataFrame.rename (df : DataFrame) (m : List (String × String)) : DataFrame :=
  { cols := df.cols.map (renameColumn m),
    rows := df.rows.map (fun r => r.map (fun kv => (renameColumn m kv.1, kv.2))),
    meta := df.meta }

/-- Lines 155-156: `data_frame[key] = value` with a scalar broadcasts the
literal to every row and creates the column when absent. -/
def DataFrame.setColumn (df : DataFrame) (key v : String) : DataFrame :=
  { cols := if key ∈ df.cols then df.cols else df.cols ++ [key],
    rows := df.rows.map (fun r => dictInsert key v r),
    meta := df.meta }

/-- The custom-column loop of lines 155-156 over the whole dict. -/
def addCustomColumns (cc : List (String × String)) (df : DataFrame) : DataFrame :=
  cc.foldl (fun d kv => d.setColumn kv.1 kv.2) df

/-- Lines 131-158 after the GET returned `resp`: `raise_for_status`, extract
`rows`, keep the rest as metadata, build the frame, rename, add custom
columns. -/
def processResponse (self : LabKey) (resp : QueryResponse) : Except String DataFrame :=
  if 400 ≤ resp.status then Except.error "HTTPError"
  else
    Except.ok (addCustomColumns self.custom_columns
      (((DataFrame.from_dict resp.rows).withMeta resp.metadata).rename self.aliases))

/-- Models `LabKey.query(filters, aliases)` (lines 81-158).  The single GET of
line 131 is modelled by taking the server's response `resp` as an argument;
the returned `Request` records the URL and parameters of that GET.  The
`aliases` argument mirrors the Python signature (default an empty dict); like
the source, the body never reads it. -/
def LabKey.query (self : LabKey) (filters : List (String × String))
    (aliases : List (String × String)) (resp : QueryResponse) :
    Except String (Request × DataFrame) :=
  match buildRequest self filters with
  | Except.ok req =>
    match processResponse self resp with
    | Except.ok df => Except.ok (req, df)
    | Except.error e => Except.error e
  | Except.error e => Except.error e

/-- The session object of line 78: a cookie jar. -/
structure Session where
  cookies : List (String × String)
deriving DecidableEq

/-- Status and cookies set by the reply to the login POST. -/
structure LoginResponse where
  status : Nat
  setCookies : List (String × String)
deriving DecidableEq

/-- Lines 174-185: the POST payload; missing arguments default to the stored
credentials. -/
def loginPayload (self : LabKey) (email password : Option String) :
    List (String × String) :=
  [("email", email.getD self.email), ("password", password.getD self.password)]

/-- Models `LabKey.login` (lines 161-194): the POST of `loginPayload` to
`login/login.post` merges the response's cookies into the session jar
(requests.Session semantics), then `raise_for_status`, then the JSESSIONID
check of line 193.  Returns the payload that was posted, the session as
mutated in place, and the outcome. -/
def LabKey.login (self : LabKey) (sess : Session) (email password : Option String)
    (resp : LoginResponse) : List (String × String) × Session × Except String Unit :=
  let sess' : Session := ⟨dictUpdate sess.cookies resp.setCookies⟩
  if 400 ≤ resp.status then (loginPayload self email password, sess', Except.error "HTTPError")
  else if (dictGet "JSESSIONID" sess'.cookies).isSome then
    (loginPayload self email password, sess', Except.ok ())
  else (loginPayload self email password, sess', Except.error "RuntimeError: Unable to authenticate.")

/-- YAML values appearing in this tool's config entries: scalars, the
`columns` list, and the `aliases` / `custom_columns` dicts. -/
inductive CVal where
  | str (s : String)
  | list (l : List String)
  | dict (d : List (String × String))
deriving DecidableEq

/-- The nine keyword arguments of `LabKey.__init__`, in the order
`from_yaml_file` reads them out of the merged config (lines 36-46). -/
def requiredKeys : List String :=
  ["host", "email", "password", "project", "schema", "query_name",
   "columns", "aliases", "custom_columns"]

/-- Reads the required keys out of a merged server config; the first missing
key raises `KeyError`, mirroring the subscript accesses of lines 37-45. -/
def getRequired (cfg : List (String × CVal)) : List String → Except String (List CVal)
  | [] => Except.ok []
  | k :: ks =>
    match dictGet k cfg with
    | some v =>
      match getRequired cfg ks with
      | Except.ok vs => Except.ok (v :: vs)
      | Except.error e => Except.error e
    | none => Except.error ("KeyError: " ++ k)

/-- Models `LabKey.from_yaml_file` once the YAML document is parsed (lines
26-50); file IO, `os.path.expandvars` and `yaml.load` are outside the model.
`default.copy()` followed by `.update(server)` is the shallow merge
`dictUpdate`; a constructed instance is its nine parameters in `requiredKeys`
order. -/
def from_yaml_config (dflt : List (String × CVal)) :
    List (List (String × CVal)) → Except String (List (List CVal))
  | [] => Except.ok []
  | server :: rest =>
    match getRequired (dictUpdate dflt server) requiredKeys with
    | Except.ok inst =>
      match from_yaml_config dflt rest with
      | Except.ok insts => Except.ok (inst :: insts)
      | Except.error e => Except.error e
    | Except.error e => Except.error e

/-! ### Concrete instances used by witnesses and counterexamples -/

/-- A connection configured like the spec's running example. -/
def exConn : LabKey :=
  { host := "http://host/labkey/", email := "admin@example.org", password := "secret",
    project := "proj", schema := "sch", query_name := "qn", columns := ["gender"],
    aliases := [("specimen_id/donor_sex", "gender")],
    custom_columns := [("batch", "2024-01")] }

/-- The request `exConn` builds from an empty filter dict. -/
def exReq : Request :=
  { url := "http://host/labkey/query/proj/selectRows.api",
    params := [("schemaName", "sch"), ("query.queryName", "qn"),
               ("query.columns", "specimen_id/donor_sex")] }

/-- The frame `exConn` builds from a zero-row response. -/
def exDf : DataFrame :=
  { cols := ["batch"], rows := [], meta := [] }

/-- A default config section holding all nine required keys. -/
def exDefault : List (String × CVal) :=
  [("host", CVal.str "http://a/"), ("email", CVal.str "e"), ("password", CVal.str "p"),
   ("project", CVal.str "pr"), ("schema", CVal.str "s"), ("query_name", CVal.str "q"),
   ("columns", CVal.list ["gender"]),
   ("aliases", CVal.dict [("specimen_id/donor_sex", "gender")]),
   ("custom_columns", CVal.dict [])]

/-! ### Dictionary lemmas -/

theorem dictGet_insert_self {α : Type} (k : String) (v : α) (d : List (String × α)) :
    dictGet k (dictInsert k v d) = some v := by
  induction d with
  | nil => simp [dictInsert, dictGet]
  | cons p rest ih =>
    obtain ⟨k₀, v₀⟩ := p
    by_cases h0 : k₀ = k
    · simp [dictInsert, h0, dictGet]
    · simp [dictInsert, h0, dictGet, ih]

theorem dictGet_insert_ne {α : Type} {k' k : String} (v : α) (d : List (String × α))
    (h : k' ≠ k) : dictGet k (dictInsert k' v d) = dictGet k d := by
  induction d with
  | nil => simp [dictInsert, dictGet, h]
  | cons p rest ih =>
    obtain ⟨k₀, v₀⟩ := p
    by_cases h0 : k₀ = k'
    · subst h0
      simp [dictInsert, dictGet, h]
    · have h2 : ¬ k = k' := fun hk => h hk.symm
      by_cases h1 : k₀ = k <;> simp [dictInsert, dictGet, h, h2, h0, h1, ih]

theorem mem_keys_insert {α : Type} {n k : String} {v : α} {d : List (String × α)}
    (h : n ∈ (dictInsert k v d).map Prod.fst) : n = k ∨ n ∈ d.map Prod.fst := by
  induction d with
  | nil =>
    simp only [dictInsert, List.map_cons, List.map_nil, List.mem_singleton] at h
    exact Or.inl h
  | cons p rest ih =>
    obtain ⟨k₀, v₀⟩ := p
    by_cases h0 : k₀ = k
    · subst h0
      have he : dictInsert k₀ v ((k₀, v₀) :: rest) = (k₀, v) :: rest := by
        simp [dictInsert]
      rw [he, List.map_cons, List.mem_cons] at h
      rcases h with h | h
      · exact Or.inl h
      · exact Or.inr (by rw [List.map_cons, List.mem_cons]; exact Or.inr h)
    · have he : dictInsert k v ((k₀, v₀) :: rest) = (k₀, v₀) :: dictInsert k v rest := by
        simp [dictInsert, h0]
      rw [he, List.map_cons, List.mem_cons] at h
      rcases h with h | h
      · exact Or.inr (by rw [List.map_cons, List.mem_cons]; exact Or.inl h)
      · rcases ih h with h | h
        · exact Or.inl h
        · exact Or.inr (by rw [List.map_cons, List.mem_cons]; exact Or.inr h)

theorem dictGet_eq_none {α : Type} {k : String} {d : List (String × α)}
    (h : ¬ k ∈ d.map Prod.fst) : dictGet k d = none := by
  induction d with
  | nil => simp [dictGet]
  | cons p rest ih =>
    obtain ⟨k₀, v₀⟩ := p
    simp only [List.map_cons, List.mem_cons] at h
    push_neg at h
    have h' : ¬ k₀ = k := fun hh => h.1 hh.symm
    simp [dictGet, h', ih h.2]

theorem dictGet_of_mem_nodup {α : Type} {k : String} {v : α} {d : List (String × α)}
    (hnd : (d.map Prod.fst).Nodup) (h : (k, v) ∈ d) : dictGet k d = some v := by
  induction d with
  | nil => cases h
  | cons p rest ih =>
    obtain ⟨k₀, v₀⟩ := p
    simp only [List.map_cons, List.nodup_cons] at hnd
    rcases List.mem_cons.mp h with h | h
    · injection h with h1 h2
      subst h1
      subst h2
      simp [dictGet]
    · have hne : ¬ k₀ = k := by
        rintro rfl
        exact hnd.1 (List.mem_map.mpr ⟨(k₀, v), h, rfl⟩)
      simp [dictGet, hne, ih hnd.2 h]

theorem nodup_keys_insert {α : Type} (k : String) (v : α) {d : List (String × α)}
    (hnd : (d.map Prod.fst).Nodup) : ((dictInsert k v d).map Prod.fst).Nodup := by
  induction d with
  | nil => simp [dictInsert]
  | cons p rest ih =>
    obtain ⟨k₀, v₀⟩ := p
    simp only [List.map_cons, List.nodup_cons] at hnd
    by_cases h0 : k₀ = k
    · subst h0
      have he : dictInsert k₀ v ((k₀, v₀) :: rest) = (k₀, v) :: rest := by
        simp [dictInsert]
      rw [he, List.map_cons, List.nodup_cons]
      exact ⟨hnd.1, hnd.2⟩
    · have he : dictInsert k v ((k₀, v₀) :: rest) = (k₀, v₀) :: dictInsert k v rest := by
        simp [dictInsert, h0]
      rw [he, List.map_cons, List.nodup_cons]
      refine ⟨fun hmem => ?_, ih hnd.2⟩
      rcases mem_keys_insert hmem with h | h
      · exact h0 h
      · exact hnd.1 h

theorem dictGet_update_notin {α : Type} {k : String} {e : List (String × α)}
    (d : List (String × α)) (h : ¬ k ∈ e.map Prod.fst) :
    dictGet k (dictUpdate d e) = dictGet k d := by
  induction e generalizing d with
  | nil => rfl
  | cons p rest ih =>
    obtain ⟨k₀, v₀⟩ := p
    simp only [List.map_cons, List.mem_cons] at h
    push_neg at h
    show dictGet k (dictUpdate (dictInsert k₀ v₀ d) rest) = dictGet k d
    rw [ih _ h.2, dictGet_insert_ne _ _ (fun hk => h.1 hk.symm)]

theorem dictGet_update_of_get {α : Type} {k : String} {v : α} {e : List (String × α)}
    (d : List (String × α)) (hnd : (e.map Prod.fst).Nodup) (h : dictGet k e = some v) :
    dictGet k (dictUpdate d e) = some v := by
  induction e generalizing d with
  | nil => simp [dictGet] at h
  | cons p rest ih =>
    obtain ⟨k₀, v₀⟩ := p
    simp only [List.map_cons, List.nodup_cons] at hnd
    show dictGet k (dictUpdate (dictInsert k₀ v₀ d) rest) = some v
    by_cases h0 : k₀ = k
    · subst h0
      simp only [dictGet, if_pos] at h
      injection h with h
      subst h
      rw [dictGet_update_notin _ hnd.1]
      exact dictGet_insert_self k₀ v₀ d
    · simp only [dictGet, h0, if_false, if_neg h0] at h
      exact ih _ hnd.2 h

theorem mem_keys_update {α : Type} {n : String} {d e : List (String × α)}
    (h : n ∈ (dictUpdate d e).map Prod.fst) :
    n ∈ d.map Prod.fst ∨ n ∈ e.map Prod.fst := by
  induction e generalizing d with
  | nil => exact Or.inl h
  | cons p rest ih =>
    obtain ⟨k₀, v₀⟩ := p
    have h' : n ∈ (dictUpdate (dictInsert k₀ v₀ d) rest).map Prod.fst := h
    rcases ih h' with h'' | h''
    · rcases mem_keys_insert h'' with h'' | h''
      · exact Or.inr (by rw [List.map_cons, List.mem_cons]; exact Or.inl h'')
      · exact Or.inl h''
    · exact Or.inr (by rw [List.map_cons, List.mem_cons]; exact Or.inr h'')

theorem dictGet_update_orElse {α : Type} {k : String} (d : List (String × α))
    {e : List (String × α)} (hnd : (e.map Prod.fst).Nodup) :
    dictGet k (dictUpdate d e) = (dictGet k e).orElse (fun _ => dictGet k d) := by
  cases hv : dictGet k e with
  | none =>
    have hne : ¬ k ∈ e.map Prod.fst := by
      intro hm
      rcases List.mem_map.mp hm with ⟨⟨k', v'⟩, hmem, hk⟩
      cases hk
      have hcontr := dictGet_of_mem_nodup hnd hmem
      rw [hv] at hcontr
      cases hcontr
    simp [dictGet_update_notin d hne, Option.orElse]
  | some v => simp [dictGet_update_of_get d hnd hv, Option.orElse]

/-! ### Reverse-alias lemmas -/

theorem revFold_get_notin (v : String) {l : List (String × String)}
    (acc : List (String × String)) (h : ¬ v ∈ l.map Prod.snd) :
    dictGet v (l.foldl (fun acc kv => dictInsert kv.2 kv.1 acc) acc) = dictGet v acc := by
  induction l generalizing acc with
  | nil => rfl
  | cons p rest ih =>
    obtain ⟨k₀, v₀⟩ := p
    simp only [List.map_cons, List.mem_cons] at h
    push_neg at h
    simp only [List.foldl_cons]
    rw [ih _ h.2, dictGet_insert_ne _ _ (fun hk => h.1 hk.symm)]

theorem reverseAliases_append_last (l₁ l₂ : List (String × String)) (k v : String)
    (h : ¬ v ∈ l₂.map Prod.snd) :
    dictGet v (reverseAliases (l₁ ++ (k, v) :: l₂)) = some k := by
  unfold reverseAliases
  rw [List.foldl_append]
  simp only [List.foldl_cons]
  rw [revFold_get_notin v _ h, dictGet_insert_self]

theorem dictGet_reverseAliases_of_notin {v : String} {al : List (String × String)}
    (h : ¬ v ∈ al.map Prod.snd) : dictGet v (reverseAliases al) = none := by
  unfold reverseAliases
  rw [revFold_get_notin v [] h]
  rfl

theorem dictGet_reverseAliases_of_mem {k v : String} {al : List (String × String)}
    (hv : (al.map Prod.snd).Nodup) (h : (k, v) ∈ al) :
    dictGet v (reverseAliases al) = some k := by
  rcases List.append_of_mem h with ⟨l₁, l₂, rfl⟩
  apply reverseAliases_append_last
  rw [List.map_append, List.map_cons] at hv
  have h2 := List.Nodup.of_append_right hv
  rw [List.nodup_cons] at h2
  exact h2.1

theorem translateColumn_of_mem {k v : String} {al : List (String × String)}
    (hv : (al.map Prod.snd).Nodup) (h : (k, v) ∈ al) : translateColumn al v = k := by
  unfold translateColumn
  rw [dictGet_reverseAliases_of_mem hv h]
  rfl

theorem translateColumn_of_notin {c : String} {al : List (String × String)}
    (h : ¬ c ∈ al.map Prod.snd) : translateColumn al c = c := by
  unfold translateColumn
  rw [dictGet_reverseAliases_of_notin h]
  rfl

theorem renameColumn_of_mem {k v : String} {al : List (String × String)}
    (hk : (al.map Prod.fst).Nodup) (h : (k, v) ∈ al) : renameColumn al k = v := by
  unfold renameColumn
  rw [dictGet_of_mem_nodup hk h]
  rfl

theorem renameColumn_of_notin {c : String} {al : List (String × String)}
    (h : ¬ c ∈ al.map Prod.fst) : renameColumn al c = c := by
  unfold renameColumn
  rw [dictGet_eq_none h]
  rfl

/-! ### String-splitting lemmas -/

theorem splitChar_of_not_mem {c : Char} {l : List Char} (h : ¬ c ∈ l) :
    splitChar c l = [l] := by
  induction l with
  | nil => rfl
  | cons x xs ih =>
    simp only [List.mem_cons] at h
    push_neg at h
    have h1 : ¬ x = c := fun hh => h.1 hh.symm
    simp only [splitChar]
    rw [ih h.2]
    simp [h1]

theorem splitFilterKey_of_no_tilde {k : String} (h : ¬ '~' ∈ k.data) :
    splitFilterKey k = none := by
  unfold splitFilterKey
  rw [splitChar_of_not_mem h]

theorem tilde_mem_expr (a op : String) : '~' ∈ (a ++ "~" ++ op).data := by
  rw [String.data_append, String.data_append]
  have he : String.data "~" = ['~'] := rfl
  rw [he]
  simp

theorem expr_ne_of_no_tilde {s : String} (hs : ¬ '~' ∈ s.data) (a op : String) :
    ¬ ("query." ++ a ++ "~" ++ op) = s := by
  intro he
  exact hs (he ▸ tilde_mem_expr ("query." ++ a) op)

/-! ### Filter-translation lemmas -/

theorem buildFilterParams_ok_of_splittable {al : List (String × String)}
    {fs : List (String × String)} (h : ∀ p ∈ fs, (splitFilterKey p.1).isSome = true)
    (acc : List (String × String)) :
    ∃ d, buildFilterParams al acc fs = Except.ok d := by
  induction fs generalizing acc with
  | nil => exact ⟨acc, rfl⟩
  | cons p rest ih =>
    obtain ⟨key, v⟩ := p
    have hk := h (key, v) (List.mem_cons_self _ _)
    cases hsk : splitFilterKey key with
    | none =>
      rw [hsk] at hk
      simp at hk
    | some co =>
      obtain ⟨c, op⟩ := co
      simp only [buildFilterParams, hsk]
      exact ih (fun q hq => h q (List.mem_cons_of_mem _ hq)) _

theorem buildFilterParams_error_of_bad {al fs : List (String × String)} {k v : String}
    (hmem : (k, v) ∈ fs) (hk : splitFilterKey k = none) (acc : List (String × String)) :
    ∃ e, buildFilterParams al acc fs = Except.error e := by
  induction fs generalizing acc with
  | nil => cases hmem
  | cons p rest ih =>
    obtain ⟨key, v'⟩ := p
    rcases List.mem_cons.mp hmem with h | h
    · injection h with h1 h2
      subst h1
      simp only [buildFilterParams, hk]
      exact ⟨_, rfl⟩
    · cases hsk : splitFilterKey key with
      | none =>
        simp only [buildFilterParams, hsk]
        exact ⟨_, rfl⟩
      | some co =>
        obtain ⟨c, op⟩ := co
        simp only [buildFilterParams, hsk]
        exact ih h _

theorem buildFilterParams_get_notin {al fs : List (String × String)} {n : String}
    {acc d : List (String × String)}
    (h : buildFilterParams al acc fs = Except.ok d)
    (hn : ¬ n ∈ fs.map (fun p => translatedName al p.1)) :
    dictGet n d = dictGet n acc := by
  induction fs generalizing acc with
  | nil =>
    injection h with h
    rw [h]
  | cons p rest ih =>
    obtain ⟨key, v⟩ := p
    simp only [List.map_cons, List.mem_cons] at hn
    push_neg at hn
    cases hsk : splitFilterKey key with
    | none =>
      simp only [buildFilterParams, hsk] at h
      cases h
    | some co =>
      obtain ⟨c, op⟩ := co
      simp only [buildFilterParams, hsk] at h
      have hname : translatedName al key = "query." ++ translateColumn al c ++ "~" ++ op := by
        simp only [translatedName, hsk]
      rw [ih h hn.2, dictGet_insert_ne _ _ (fun hk => hn.1 (hname ▸ hk).symm)]

theorem buildFilterParams_get_mem {al fs : List (String × String)} {k v c op : String}
    {acc d : List (String × String)}
    (hnd : (fs.map (fun p => translatedName al p.1)).Nodup)
    (hmem : (k, v) ∈ fs) (hk : splitFilterKey k = some (c, op))
    (h : buildFilterParams al acc fs = Except.ok d) :
    dictGet ("query." ++ translateColumn al c ++ "~" ++ op) d = some v := by
  induction fs generalizing acc with
  | nil => cases hmem
  | cons p rest ih =>
    obtain ⟨key, v'⟩ := p
    simp only [List.map_cons, List.nodup_cons] at hnd
    rcases List.mem_cons.mp hmem with hh | hh
    · injection hh with h1 h2
      subst h1
      subst h2
      have hname : translatedName al k = "query." ++ translateColumn al c ++ "~" ++ op := by
        simp only [translatedName, hk]
      simp only [buildFilterParams, hk] at h
      rw [buildFilterParams_get_notin h (hname ▸ hnd.1), dictGet_insert_self]
    · cases hsk : splitFilterKey key with
      | none =>
        simp only [buildFilterParams, hsk] at h
        cases h
      | some co =>
        obtain ⟨c', op'⟩ := co
        simp only [buildFilterParams, hsk] at h
        exact ih hnd.2 hh h

theorem buildFilterParams_keys {al fs : List (String × String)} {n : String}
    {acc d : List (String × String)}
    (h : buildFilterParams al acc fs = Except.ok d) (hn : n ∈ d.map Prod.fst) :
    n ∈ acc.map Prod.fst ∨ ∃ p, p ∈ fs ∧ ∃ c op, splitFilterKey p.1 = some (c, op) ∧
      n = "query." ++ translateColumn al c ++ "~" ++ op := by
  induction fs generalizing acc with
  | nil =>
    injection h with h
    subst h
    exact Or.inl hn
  | cons p rest ih =>
    obtain ⟨key, v⟩ := p
    cases hsk : splitFilterKey key with
    | none =>
      simp only [buildFilterParams, hsk] at h
      cases h
    | some co =>
      obtain ⟨c, op⟩ := co
      simp only [buildFilterParams, hsk] at h
      rcases ih h with hacc | ⟨q, hq, c', op', hq1, hq2⟩
      · rcases mem_keys_insert hacc with hacc | hacc
        · exact Or.inr ⟨(key, v), List.mem_cons_self _ _, c, op, hsk, hacc⟩
        · exact Or.inl hacc
      · exact Or.inr ⟨q, List.mem_cons_of_mem _ hq, c', op', hq1, hq2⟩

theorem buildFilterParams_nodup_keys {al fs : List (String × String)}
    {acc d : List (String × String)}
    (hacc : (acc.map Prod.fst).Nodup) (h : buildFilterParams al acc fs = Except.ok d) :
    (d.map Prod.fst).Nodup := by
  induction fs generalizing acc with
  | nil =>
    injection h with h
    subst h
    exact hacc
  | cons p rest ih =>
    obtain ⟨key, v⟩ := p
    cases hsk : splitFilterKey key with
    | none =>
      simp only [buildFilterParams, hsk] at h
      cases h
    | some co =>
      obtain ⟨c, op⟩ := co
      simp only [buildFilterParams, hsk] at h
      exact ih (nodup_keys_insert _ _ hacc) h

/-! ### Data-frame lemmas -/

theorem setColumn_cols_self (df : DataFrame) (k v : String) :
    k ∈ (df.setColumn k v).cols := by
  unfold DataFrame.setColumn
  by_cases h : k ∈ df.cols
  · simpa [h]
  · simp [h]

theorem setColumn_cols_mono {df : DataFrame} {c : String} (k v : String)
    (h : c ∈ df.cols) : c ∈ (df.setColumn k v).cols := by
  unfold DataFrame.setColumn
  by_cases hk : k ∈ df.cols
  · simpa [hk]
  · simp only [hk, if_false, if_neg hk, List.mem_append]
    exact Or.inl h

theorem setColumn_rows_self {df : DataFrame} {k v : String} {r : List (String × String)}
    (h : r ∈ (df.setColumn k v).rows) : dictGet k r = some v := by
  unfold DataFrame.setColumn at h
  simp only [List.mem_map] at h
  rcases h with ⟨r₀, _, rfl⟩
  exact dictGet_insert_self k v r₀

theorem setColumn_rows_other {df : DataFrame} {k v n : String} {r : List (String × String)}
    (hne : k ≠ n) (h : r ∈ (df.setColumn k v).rows) :
    ∃ r₀, r₀ ∈ df.rows ∧ dictGet n r = dictGet n r₀ := by
  unfold DataFrame.setColumn at h
  simp only [List.mem_map] at h
  rcases h with ⟨r₀, hr₀, rfl⟩
  exact ⟨r₀, hr₀, dictGet_insert_ne _ _ hne⟩

theorem addCustomColumns_preserve {cc : List (String × String)} {n v : String}
    (hn : ¬ n ∈ cc.map Prod.fst) (df : DataFrame)
    (hcol : n ∈ df.cols) (hrows : ∀ r ∈ df.rows, dictGet n r = some v) :
    n ∈ (addCustomColumns cc df).cols ∧
      ∀ r ∈ (addCustomColumns cc df).rows, dictGet n r = some v := by
  induction cc generalizing df with
  | nil => exact ⟨hcol, hrows⟩
  | cons p rest ih =>
    obtain ⟨k₀, v₀⟩ := p
    simp only [List.map_cons, List.mem_cons] at hn
    push_neg at hn
    refine ih hn.2 (df.setColumn k₀ v₀) (setColumn_cols_mono _ _ hcol) ?_
    intro r hr
    rcases setColumn_rows_other (fun hk => hn.1 hk.symm) hr with ⟨r₀, hr₀, he⟩
    rw [he]
    exact hrows r₀ hr₀

theorem addCustomColumns_mem {cc : List (String × String)} {n v : String}
    (hnd : (cc.map Prod.fst).Nodup) (hmem : (n, v) ∈ cc) (df : DataFrame) :
    n ∈ (addCustomColumns cc df).cols ∧
      ∀ r ∈ (addCustomColumns cc df).rows, dictGet n r = some v := by
  induction cc generalizing df with
  | nil => cases hmem
  | cons p rest ih =>
    obtain ⟨k₀, v₀⟩ := p
    simp only [List.map_cons, List.nodup_cons] at hnd
    rcases List.mem_cons.mp hmem with h | h
    · injection h with h1 h2
      subst h1
      subst h2
      exact addCustomColumns_preserve hnd.1 (df.setColumn n v) (setColumn_cols_self df n v)
        (fun r hr => setColumn_rows_self hr)
    · exact ih hnd.2 h (df.setColumn k₀ v₀)

/-! ### Query decomposition lemmas -/

theorem query_ok {self : LabKey} {filters al : List (String × String)}
    {resp : QueryResponse} {req : Request} {df : DataFrame}
    (h : self.query filters al resp = Except.ok (req, df)) :
    buildRequest self filters = Except.ok req ∧ processResponse self resp = Except.ok df := by
  unfold LabKey.query at h
  cases hbr : buildRequest self filters with
  | error e =>
    rw [hbr] at h
    cases h
  | ok req' =>
    rw [hbr] at h
    cases hpr : processResponse self resp with
    | error e =>
      rw [hpr] at h
      cases h
    | ok df' =>
      rw [hpr] at h
      injection h with h
      injection h with h1 h2
      subst h1
      subst h2
      exact ⟨rfl, rfl⟩

theorem processResponse_ok {self : LabKey} {resp : QueryResponse} {df : DataFrame}
    (h : processResponse self resp = Except.ok df) :
    df = addCustomColumns self.custom_columns
      (((DataFrame.from_dict resp.rows).withMeta resp.metadata).rename self.aliases) := by
  unfold processResponse at h
  by_cases hs : 400 ≤ resp.status
  · rw [if_pos hs] at h
    cases h
  · rw [if_neg hs] at h
    injection h with h
    exact h.symm

theorem buildRequest_ok {self : LabKey} {filters : List (String × String)} {req : Request}
    (h : buildRequest self filters = Except.ok req) :
    ∃ fp, buildFilterParams self.aliases [] filters = Except.ok fp ∧
      req.url = urljoin self.host ("query/" ++ self.project ++ "/selectRows.api") ∧
      req.params = dictUpdate (buildBaseParams self) fp := by
  unfold buildRequest at h
  cases hfp : buildFilterParams self.aliases [] filters with
  | error e =>
    rw [hfp] at h
    cases h
  | ok fp =>
    rw [hfp] at h
    injection h with h
    subst h
    exact ⟨fp, rfl, rfl, rfl⟩

/-! ### Config-loader lemmas -/

theorem getRequired_forall₂ {cfg : List (String × CVal)} {ks : List String}
    {vs : List CVal} (h : getRequired cfg ks = Except.ok vs) :
    List.Forall₂ (fun k v => dictGet k cfg = some v) ks vs := by
  induction ks generalizing vs with
  | nil =>
    injection h with h
    subst h
    exact List.Forall₂.nil
  | cons k rest ih =>
    cases hk : dictGet k cfg with
    | none =>
      simp only [getRequired, hk] at h
      cases h
    | some v =>
      simp only [getRequired, hk] at h
      cases hrest : getRequired cfg rest with
      | error e =>
        rw [hrest] at h
        cases h
      | ok vs' =>
        rw [hrest] at h
        injection h with h
        subst h
        exact List.Forall₂.cons hk (ih hrest)

theorem getRequired_error {cfg : List (String × CVal)} {ks : List String} {k : String}
    (hmem : k ∈ ks) (hk : dictGet k cfg = none) :
    ∃ e, getRequired cfg ks = Except.error e := by
  induction ks with
  | nil => cases hmem
  | cons k₀ rest ih =>
    rcases List.mem_cons.mp hmem with h | h
    · subst h
      simp only [getRequired, hk]
      exact ⟨_, rfl⟩
    · cases hk₀ : dictGet k₀ cfg with
      | none =>
        simp only [getRequired, hk₀]
        exact ⟨_, rfl⟩
      | some v =>
        rcases ih h with ⟨e, he⟩
        simp only [getRequired, hk₀, he]
        exact ⟨e, rfl⟩

theorem from_yaml_config_error {dflt : List (String × CVal)}
    {servers : List (List (String × CVal))} {s : List (String × CVal)} {k : String}
    (hs : s ∈ servers) (hk : k ∈ requiredKeys)
    (hmiss : dictGet k (dictUpdate dflt s) = none) :
    ∃ e, from_yaml_config dflt servers = Except.error e := by
  induction servers with
  | nil => cases hs
  | cons s₀ rest ih =>
    rcases List.mem_cons.mp hs with h | h
    · subst h
      rcases getRequired_error hk hmiss with ⟨e, he⟩
      simp only [from_yaml_config, he]
      exact ⟨e, rfl⟩
    · cases hg : getRequired (dictUpdate dflt s₀) requiredKeys with
      | error e =>
        simp only [from_yaml_config, hg]
        exact ⟨e, rfl⟩
      | ok inst =>
        rcases ih h with ⟨e, he⟩
        simp only [from_yaml_config, hg, he]
        exact ⟨e, rfl⟩

theorem from_yaml_config_ok {dflt : List (String × CVal)}
    {servers : List (List (String × CVal))} {insts : List (List CVal)}
    (h : from_yaml_config dflt servers = Except.ok insts) :
    List.Forall₂
      (fun s inst => getRequired (dictUpdate dflt s) requiredKeys = Except.ok inst)
      servers insts := by
  induction servers generalizing insts with
  | nil =>
    injection h with h
    subst h
    exact List.Forall₂.nil
  | cons s₀ rest ih =>
    cases hg : getRequired (dictUpdate dflt s₀) requiredKeys with
    | error e =>
      simp only [from_yaml_config, hg] at h
      cases h
    | ok inst =>
      simp only [from_yaml_config, hg] at h
      cases hr : from_yaml_config dflt rest with
      | error e =>
        rw [hr] at h
        cases h
      | ok insts' =>
        rw [hr] at h
        injection h with h
        subst h
        exact List.Forall₂.cons hg (ih hr)

/-! ### Claim theorems -/

/-- C2 helper: the round trip on one column name. -/
theorem roundtrip_elem {al : List (String × String)} {c : String}
    (hk : (al.map Prod.fst).Nodup) (hv : (al.map Prod.snd).Nodup)
    (hc : c ∈ al.map Prod.snd ∨ ¬ c ∈ al.map Prod.fst) :
    renameColumn al (translateColumn al c) = c := by
  by_cases hmem : c ∈ al.map Prod.snd
  · rcases List.mem_map.mp hmem with ⟨⟨k', v'⟩, hp, he⟩
    have he' : v' = c := he
    subst he'
    rw [translateColumn_of_mem hv hp, renameColumn_of_mem hk hp]
  · rcases hc with hc | hc
    · exact absurd hc hmem
    · rw [translateColumn_of_notin hmem, renameColumn_of_notin hc]

/-- C1 (amended): when every filter key contains exactly one `~` and the
translated parameter names are pairwise distinct, each filter key is split at
its `~` into column and operator, the column is translated through the
reverse alias map (unchanged when it has no alias), and the request carries
the parameter `query.<nativeColumn>~<operator>` bound to the filter's
original value. -/
theorem C1_filter_translation (self : LabKey) (filters : List (String × String))
    (hsplit : ∀ p ∈ filters, (splitFilterKey p.1).isSome = true)
    (hnd : (filters.map (fun p => translatedName self.aliases p.1)).Nodup)
    (k v c op : String) (hmem : (k, v) ∈ filters)
    (hk : splitFilterKey k = some (c, op)) :
    ∃ req, buildRequest self filters = Except.ok req ∧
      dictGet ("query." ++ translateColumn self.aliases c ++ "~" ++ op) req.params =
        some v := by
  rcases buildFilterParams_ok_of_splittable hsplit [] with ⟨fp, hfp⟩
  refine ⟨{ url := self.url ("query/" ++ self.project ++ "/selectRows.api"),
            params := dictUpdate (buildBaseParams self) fp }, ?_, ?_⟩
  · unfold buildRequest
    rw [hfp]
  · have hget := buildFilterParams_get_mem hnd hmem hk hfp
    have hnodup := buildFilterParams_nodup_keys (by simp) hfp
    exact dictGet_update_of_get _ hnodup hget

/-- Witness for C1: the spec's gender example produces the parameter
`query.specimen_id/donor_sex~eq = Male`. -/
theorem C1_witness :
    ∃ req, buildRequest exConn [("gender~eq", "Male")] = Except.ok req ∧
      dictGet "query.specimen_id/donor_sex~eq" req.params = some "Male" :=
  C1_filter_translation exConn [("gender~eq", "Male")] (by decide) (by decide)
    "gender~eq" "Male" "gender" "eq" (by decide) (by rfl)

/-- Counterexample to C1 as stated: a key with two `~` is not split at the
first one; the tuple unpacking raises and no request carries the parameter. -/
theorem C1_counterexample :
    buildRequest exConn [("a~b~c", "v")] =
      Except.error "ValueError: cannot unpack filter key a~b~c" := rfl

/-- C2 (amended): for alias maps with pairwise-distinct values (and the
dict-invariant distinct keys), reverse translation of a column list followed
by the forward rename restores the list, provided each entry is either an
alias value or not itself a server-native alias key. -/
theorem C2_roundtrip (al : List (String × String)) (cols : List String)
    (hk : (al.map Prod.fst).Nodup) (hv : (al.map Prod.snd).Nodup)
    (hc : ∀ c ∈ cols, c ∈ al.map Prod.snd ∨ ¬ c ∈ al.map Prod.fst) :
    (cols.map (translateColumn al)).map (renameColumn al) = cols := by
  induction cols with
  | nil => rfl
  | cons c rest ih =>
    simp only [List.map_cons]
    rw [ih (fun x hx => hc x (List.mem_cons_of_mem _ hx)),
      roundtrip_elem hk hv (hc c (List.mem_cons_self _ _))]

/-- Witness for C2 at the running example. -/
theorem C2_witness :
    ((["gender"].map (translateColumn [("specimen_id/donor_sex", "gender")])).map
      (renameColumn [("specimen_id/donor_sex", "gender")])) = ["gender"] :=
  C2_roundtrip [("specimen_id/donor_sex", "gender")] ["gender"]
    (by decide) (by decide) (by decide)

/-- Counterexample to C2 as stated: the alias map { n ↦ u } has pairwise
distinct values, yet the column list [n] round-trips to [u], because the
pass-through name n is itself a native alias key and the forward rename
grabs it. -/
theorem C2_counterexample :
    (([("n", "u")] : List (String × String)).map Prod.snd).Nodup ∧
      ¬ ((["n"].map (translateColumn [("n", "u")])).map (renameColumn [("n", "u")]) =
        ["n"]) := by
  constructor
  · decide
  · decide

/-- C3: a filter key without `~` makes query() fail with the filter-parsing
error; the failure does not depend on any response, so the GET is never
performed. -/
theorem C3_no_tilde_fails (self : LabKey) (filters al : List (String × String))
    (k v : String) (hmem : (k, v) ∈ filters) (hk : ¬ '~' ∈ k.data) :
    ∃ e, buildRequest self filters = Except.error e ∧
      ∀ resp, self.query filters al resp = Except.error e := by
  rcases buildFilterParams_error_of_bad hmem (splitFilterKey_of_no_tilde hk) []
    with ⟨e, he⟩
  refine ⟨e, ?_, ?_⟩
  · unfold buildRequest
    rw [he]
  · intro resp
    unfold LabKey.query buildRequest
    rw [he]

/-- Witness for C3: the spec's `genderEq` key. -/
theorem C3_witness :
    ∃ e, buildRequest exConn [("genderEq", "x")] = Except.error e ∧
      ∀ resp, exConn.query [("genderEq", "x")] [] resp = Except.error e :=
  C3_no_tilde_fails exConn [("genderEq", "x")] [] "genderEq" "x" (by decide) (by decide)

/-- C4: the request built by query() targets
urljoin(host, "query/<project>/selectRows.api"); its base parameters are
exactly the schema name, the query name, and the comma-join in configuration
order of the configured columns translated through the reverse alias map
(untranslated names pass through); every further parameter comes from a
filter. -/
theorem C4_request_shape (self : LabKey) (filters : List (String × String)) (req : Request)
    (h : buildRequest self filters = Except.ok req) :
    req.url = urljoin self.host ("query/" ++ self.project ++ "/selectRows.api") ∧
    dictGet "schemaName" req.params = some self.schema ∧
    dictGet "query.queryName" req.params = some self.query_name ∧
    dictGet "query.columns" req.params =
      some (joinComma (self.columns.map (translateColumn self.aliases))) ∧
    ∀ n, n ∈ req.params.map Prod.fst →
      n ∈ ["schemaName", "query.queryName", "query.columns"] ∨
        ∃ p, p ∈ filters ∧ ∃ c op, splitFilterKey p.1 = some (c, op) ∧
          n = "query." ++ translateColumn self.aliases c ++ "~" ++ op := by
  rcases buildRequest_ok h with ⟨fp, hfp, hurl, hparams⟩
  have hkeys : ∀ n, n ∈ fp.map Prod.fst → '~' ∈ n.data := by
    intro n hn
    rcases buildFilterParams_keys hfp hn with hacc | ⟨p, _, c, op, _, rfl⟩
    · exact absurd hacc (by simp)
    · exact tilde_mem_expr ("query." ++ translateColumn self.aliases c) op
  have hbase : ∀ s : String, ¬ '~' ∈ s.data →
      dictGet s req.params = dictGet s (buildBaseParams self) := by
    intro s hs
    rw [hparams]
    apply dictGet_update_notin
    intro hmm
    exact hs (hkeys s hmm)
  refine ⟨hurl, ?_, ?_, ?_, ?_⟩
  · rw [hbase "schemaName" (by decide)]
    rfl
  · rw [hbase "query.queryName" (by decide)]
    rfl
  · rw [hbase "query.columns" (by decide)]
    rfl
  · intro n hn
    rw [hparams] at hn
    rcases mem_keys_update hn with hb | hf
    · left
      simpa [buildBaseParams] using hb
    · rcases buildFilterParams_keys hfp hf with hacc | hfilter
      · exact absurd hacc (by simp)
      · exact Or.inr hfilter

/-- Witness for C4 at the example connection with no filters. -/
theorem C4_witness :
    exReq.url = urljoin exConn.host ("query/" ++ exConn.project ++ "/selectRows.api") ∧
    dictGet "schemaName" exReq.params = some exConn.schema ∧
    dictGet "query.queryName" exReq.params = some exConn.query_name ∧
    dictGet "query.columns" exReq.params =
      some (joinComma (exConn.columns.map (translateColumn exConn.aliases))) ∧
    ∀ n, n ∈ exReq.params.map Prod.fst →
      n ∈ ["schemaName", "query.queryName", "query.columns"] ∨
        ∃ p, p ∈ ([] : List (String × String)) ∧ ∃ c op, splitFilterKey p.1 = some (c, op) ∧
          n = "query." ++ translateColumn exConn.aliases c ++ "~" ++ op :=
  C4_request_shape exConn [] exReq (by rfl)

/-- C5: the config loader shallow-merges each server entry over the defaults
(a server key overrides the default value wholesale, no deep merge), fails
with a KeyError when a required key is absent from some merged result, and
otherwise produces one connection per server entry whose nine parameters are
read from the merged result. -/
theorem C5_config_loader (dflt : List (String × CVal))
    (servers : List (List (String × CVal)))
    (hs : ∀ s ∈ servers, (s.map Prod.fst).Nodup) :
    (∀ s ∈ servers, ∀ k, dictGet k (dictUpdate dflt s) =
        (dictGet k s).orElse (fun _ => dictGet k dflt)) ∧
    ((∃ s ∈ servers, ∃ k ∈ requiredKeys, dictGet k (dictUpdate dflt s) = none) →
        ∃ e, from_yaml_config dflt servers = Except.error e) ∧
    (∀ insts, from_yaml_config dflt servers = Except.ok insts →
        insts.length = servers.length ∧
        List.Forall₂ (fun s inst =>
          List.Forall₂ (fun k v => dictGet k (dictUpdate dflt s) = some v)
            requiredKeys inst) servers insts) := by
  refine ⟨?_, ?_, ?_⟩
  · intro s hsmem k
    exact dictGet_update_orElse dflt (hs s hsmem)
  · rintro ⟨s, hsmem, k, hkmem, hmiss⟩
    exact from_yaml_config_error hsmem hkmem hmiss
  · intro insts h
    have hf := from_yaml_config_ok h
    exact ⟨(List.Forall₂.length_eq hf).symm,
      List.Forall₂.imp (fun s inst hg => getRequired_forall₂ hg) hf⟩

/-- Witness for C5: one server overriding only the host. -/
theorem C5_witness :
    (∀ s ∈ [[("host", CVal.str "http://b/")]], ∀ k, dictGet k (dictUpdate exDefault s) =
        (dictGet k s).orElse (fun _ => dictGet k exDefault)) ∧
    ((∃ s ∈ [[("host", CVal.str "http://b/")]], ∃ k ∈ requiredKeys,
        dictGet k (dictUpdate exDefault s) = none) →
        ∃ e, from_yaml_config exDefault [[("host", CVal.str "http://b/")]] =
          Except.error e) ∧
    (∀ insts, from_yaml_config exDefault [[("host", CVal.str "http://b/")]] =
        Except.ok insts →
        insts.length = 1 ∧
        List.Forall₂ (fun s inst =>
          List.Forall₂ (fun k v => dictGet k (dictUpdate exDefault s) = some v)
            requiredKeys inst) [[("host", CVal.str "http://b/")]] insts) :=
  C5_config_loader exDefault [[("host", CVal.str "http://b/")]] (by decide)

/-- C6: login() with no arguments posts the stored credentials; when the
response has a success status but the merged cookie jar holds no JSESSIONID,
login fails with the authentication error and the session it leaves behind
still holds no JSESSIONID cookie. -/
theorem C6_login_cookie (self : LabKey) (sess : Session) (resp : LoginResponse)
    (hstatus : resp.status < 400)
    (hcookie : dictGet "JSESSIONID" (dictUpdate sess.cookies resp.setCookies) = none) :
    (self.login sess none none resp).1 =
      [("email", self.email), ("password", self.password)] ∧
    (self.login sess none none resp).2.2 =
      Except.error "RuntimeError: Unable to authenticate." ∧
    dictGet "JSESSIONID" (self.login sess none none resp).2.1.cookies = none := by
  have hlt : ¬ 400 ≤ resp.status := by omega
  refine ⟨?_, ?_, ?_⟩ <;>
    simp [LabKey.login, loginPayload, hlt, hcookie]

/-- Witness for C6: a success response that sets no cookie. -/
theorem C6_witness :
    (exConn.login ⟨[]⟩ none none ⟨200, []⟩).1 =
      [("email", exConn.email), ("password", exConn.password)] ∧
    (exConn.login ⟨[]⟩ none none ⟨200, []⟩).2.2 =
      Except.error "RuntimeError: Unable to authenticate." ∧
    dictGet "JSESSIONID" (exConn.login ⟨[]⟩ none none ⟨200, []⟩).2.1.cookies = none :=
  C6_login_cookie exConn ⟨[]⟩ ⟨200, []⟩ (by decide) (by rfl)

/-- C7: every configured custom column appears in the frame query() returns
as a column of that name holding the literal on every row; the column is in
the frame's column list irrespective of the rows, so also on a zero-row
response. -/
theorem C7_custom_columns (self : LabKey) (filters al : List (String × String))
    (resp : QueryResponse) (req : Request) (df : DataFrame)
    (hnd : (self.custom_columns.map Prod.fst).Nodup)
    (h : self.query filters al resp = Except.ok (req, df))
    (n v : String) (hmem : (n, v) ∈ self.custom_columns) :
    n ∈ df.cols ∧ ∀ r ∈ df.rows, dictGet n r = some v := by
  rcases query_ok h with ⟨_, hpr⟩
  rw [processResponse_ok hpr]
  exact addCustomColumns_mem hnd hmem _

/-- Witness for C7: a zero-row response still carries the batch column. -/
theorem C7_witness :
    "batch" ∈ exDf.cols ∧ ∀ r ∈ exDf.rows, dictGet "batch" r = some "2024-01" :=
  C7_custom_columns exConn [] [] ⟨200, [], []⟩ exReq exDf (by decide) (by rfl)
    "batch" "2024-01" (by decide)

/-- C8: url() joins the host and the relative path under standard
URL-resolution rules: the spec's example resolves by path merge, and a
relative path starting with a single slash replaces the host's path
component. -/
theorem C8_url (self : LabKey) (rel sch nl p : String)
    (hhost : parseUrl self.host = some (sch, nl, p))
    (hrel : parseUrl rel = none)
    (h1 : startsWith1 rel '/' = true)
    (h2 : startsWith2 rel '/' '/' = false)
    (self2 : LabKey) (hhost2 : self2.host = "http://host/labkey/") :
    self.url rel = sch ++ "://" ++ nl ++ rel ∧
    self2.url "login/login.post" = "http://host/labkey/login/login.post" := by
  constructor
  · have hne : ¬ rel = "" := by
      intro he
      subst he
      simp [startsWith1] at h1
    simp [LabKey.url, urljoin, hrel, hhost, hne, h1, h2]
  · unfold LabKey.url
    rw [hhost2]
    decide

/-- Witness for C8: a single-slash relative path replaces the base path, and
the example join holds. -/
theorem C8_witness :
    LabKey.url { exConn with host := "http://h/base/" } "/x/y" =
      "http" ++ "://" ++ "h" ++ "/x/y" ∧
    exConn.url "login/login.post" = "http://host/labkey/login/login.post" :=
  C8_url { exConn with host := "http://h/base/" } "/x/y" "http" "h" "/base/"
    (by rfl) (by rfl) (by rfl) (by rfl) exConn (by rfl)

/-- C9: when the alias map holds two distinct server-native keys with the
same user-facing value, the inverted map sends that value to exactly the key
whose entry is processed last during the inversion. -/
theorem C9_last_write_wins (l₁ l₂ : List (String × String)) (k k₀ v : String)
    (hcol : (k₀, v) ∈ l₁) (hk : ¬ k₀ = k) (hlast : ¬ v ∈ l₂.map Prod.snd) :
    dictGet v (reverseAliases (l₁ ++ (k, v) :: l₂)) = some k :=
  reverseAliases_append_last l₁ l₂ k v hlast

/-- Witness for C9: two native names share the alias `gender`; the later
entry wins. -/
theorem C9_witness :
    dictGet "gender" (reverseAliases
      ([("specimen_id/donor_sex", "gender")] ++ ("cell_sex", "gender") :: [])) =
      some "cell_sex" :=
  C9_last_write_wins [("specimen_id/donor_sex", "gender")] [] "cell_sex"
    "specimen_id/donor_sex" "gender" (by decide) (by decide) (by decide)

/-- C10: the aliases argument of query() is dead: two calls differing only in
it build the same request and return the same result. -/
theorem C10_aliases_argument_unused (self : LabKey)
    (filters a₁ a₂ : List (String × String)) (resp : QueryResponse) :
    self.query filters a₁ resp = self.query filters a₂ resp := rfl

end LabKeyTool
